import Mathlib

/-!
Verification of the protocol-metadata validation and export scripts
(`scripts/validate_protocol.py`, `scripts/ProtocolsTable.py`,
`scripts/check_verified_contracts.py`).

The Python code is shallowly embedded: Python strings are Lean `String`
(sequences of code points), Python dicts that the scripts only iterate or
index become association lists in insertion order, JSON records become the
`FileData` structure whose optional fields model present/absent keys, file
reading becomes an `Option FileData` (with `none` for a parse failure), and
Python exceptions become `Except PyError`.  Network probes are oracles
passed in as functions.
-/

namespace Protocols

/-! ## Python string primitives -/

/-- Python `str.lower` on code points, the address canonicalization used by
every corpus check (`address.lower()` in the source).  `Char.toLower`, like
the comparisons the scripts perform, acts on the basic latin range. -/
def canon (s : String) : String := ⟨s.data.map Char.toLower⟩

/-- Python `str.startswith`: the first `p.length` code points equal `p`. -/
def startswith (s p : String) : Bool := s.data.take p.data.length == p.data

/-- Python `str.endswith`: the last `p.length` code points equal `p`. -/
def endswith (s p : String) : Bool := s.data.drop (s.data.length - p.data.length) == p.data

/-- Worker for `pySplit`, structurally recursive on explicit fuel so that it
reduces on concrete inputs; scans left to right for the first occurrence of
the separator, exactly like Python `str.split` with a non-empty separator. -/
def splitChunk (sep : List Char) : Nat → List Char → List Char → List (List Char)
  | 0, _, acc => [acc.reverse]
  | _ + 1, [], acc => [acc.reverse]
  | fuel + 1, c :: rest, acc =>
    if sep.isPrefixOf (c :: rest) then
      acc.reverse :: splitChunk sep fuel ((c :: rest).drop sep.length) []
    else
      splitChunk sep fuel rest (c :: acc)

/-- Python `s.split(sep)` for a non-empty separator: non-overlapping matches,
left to right; `.split` of the empty string gives `[""]`. -/
def pySplit (s sep : String) : List String :=
  (splitChunk sep.data (s.data.length + 1) s.data []).map (fun l => ⟨l⟩)

/-! ## Stable sorting (Python `sorted`)

Python `sorted` is a stable sort.  We model it with a stable insertion sort
over a Boolean `≤`-style comparator; for a total, transitive comparator this
produces the unique stable sorted permutation, the same list `sorted`
returns. -/

/-- Insert `a` before the first element `b` with `le a b`. -/
def insertLe (le : α → α → Bool) (a : α) : List α → List α
  | [] => [a]
  | b :: bs => if le a b then a :: b :: bs else b :: insertLe le a bs

/-- Stable insertion sort; the model of Python `sorted`. -/
def sortLe (le : α → α → Bool) : List α → List α
  | [] => []
  | a :: as => insertLe le a (sortLe le as)

theorem perm_insertLe (le : α → α → Bool) (a : α) (l : List α) :
    List.Perm (insertLe le a l) (a :: l) := by
  induction l with
  | nil => rfl
  | cons b bs ih =>
    unfold insertLe
    by_cases h : le a b
    · rw [if_pos h]
    · rw [if_neg h]
      exact ((ih.cons b).trans (List.Perm.swap a b bs))

theorem perm_sortLe (le : α → α → Bool) (l : List α) : List.Perm (sortLe le l) l := by
  induction l with
  | nil => rfl
  | cons a as ih =>
    unfold sortLe
    exact (perm_insertLe le a (sortLe le as)).trans (ih.cons a)

theorem length_sortLe (le : α → α → Bool) (l : List α) : (sortLe le l).length = l.length :=
  (perm_sortLe le l).length_eq

theorem pairwise_insertLe (le : α → α → Bool)
    (trans : ∀ a b c, le a b → le b c → le a c)
    (total : ∀ a b, le a b || le b a)
    (a : α) (l : List α) (h : l.Pairwise (le · ·)) :
    (insertLe le a l).Pairwise (le · ·) := by
  induction l with
  | nil => simp [insertLe]
  | cons b bs ih =>
    unfold insertLe
    rcases List.pairwise_cons.mp h with ⟨hb, hbs⟩
    by_cases hab : le a b
    · rw [if_pos hab]
      refine List.pairwise_cons.mpr ⟨?_, h⟩
      intro x hx
      rcases List.mem_cons.mp hx with rfl | hx
      · exact hab
      · exact trans a b x hab (hb x hx)
    · rw [if_neg hab]
      refine List.pairwise_cons.mpr ⟨?_, ih hbs⟩
      intro x hx
      rcases List.mem_cons.mp ((perm_insertLe le a bs).mem_iff.mp hx) with rfl | h2
      · have := total x b
        simp [hab] at this
        exact this
      · exact hb x h2

theorem pairwise_sortLe (le : α → α → Bool)
    (trans : ∀ a b c, le a b → le b c → le a c)
    (total : ∀ a b, le a b || le b a)
    (l : List α) : (sortLe le l).Pairwise (le · ·) := by
  induction l with
  | nil => simp [sortLe]
  | cons a as ih =>
    unfold sortLe
    exact pairwise_insertLe le trans total a (sortLe le as) ih

/-! ## Python comparisons

Python compares strings lexicographically by code point, and tuples
lexicographically component by component.  The comparators below model
exactly that; `Symm`/`LeTrans` supply the totality and transitivity that
`sortLe` needs. -/

/-- Python `Char` comparison by code point. -/
def cmpChar (a b : Char) : Ordering :=
  if a.toNat < b.toNat then .lt else if b.toNat < a.toNat then .gt else .eq

/-- Python string comparison: lexicographic by code point. -/
def cmpCharList : List Char → List Char → Ordering
  | [], [] => .eq
  | [], _ :: _ => .lt
  | _ :: _, [] => .gt
  | a :: as, b :: bs => (cmpChar a b).then (cmpCharList as bs)

def cmpStr (a b : String) : Ordering := cmpCharList a.data b.data

/-- Lexicographic combination of two comparators, as Python does for tuples. -/
def cmpThen (cmp1 cmp2 : α → α → Ordering) (a b : α) : Ordering :=
  (cmp1 a b).then (cmp2 a b)

/-- Compare through a projection. -/
def cmpOn (f : α → β) (cmp : β → β → Ordering) (a b : α) : Ordering := cmp (f a) (f b)

/-- Antisymmetry law of a comparator. -/
def CmpSymm (cmp : α → α → Ordering) : Prop := ∀ a b, cmp a b = (cmp b a).swap

/-- Transitivity of the reflexive order induced by a comparator. -/
def CmpLeTrans (cmp : α → α → Ordering) : Prop :=
  ∀ a b c, (cmp a b).isLE → (cmp b c).isLE → (cmp a c).isLE

theorem char_toNat_inj {c d : Char} (h : c.toNat = d.toNat) : c = d := by
  have hc := Char.ofNat_toNat c
  rw [h, Char.ofNat_toNat] at hc
  exact hc.symm

theorem cmpChar_symm : CmpSymm cmpChar := by
  intro a b
  unfold cmpChar
  rcases Nat.lt_trichotomy a.toNat b.toNat with h | h | h
  · rw [if_pos h, if_neg (by omega), if_pos h]
    rfl
  · rw [if_neg (by omega), if_neg (by omega), if_neg (by omega), if_neg (by omega)]
    rfl
  · rw [if_neg (by omega), if_pos h, if_pos h]
    rfl

theorem cmpChar_eq_iff {a b : Char} : cmpChar a b = .eq ↔ a = b := by
  constructor
  · intro h
    unfold cmpChar at h
    split_ifs at h
    exact char_toNat_inj (by omega)
  · rintro rfl
    unfold cmpChar
    rw [if_neg (by omega), if_neg (by omega)]

theorem cmpChar_lt_iff {a b : Char} : cmpChar a b = .lt ↔ a.toNat < b.toNat := by
  unfold cmpChar
  split_ifs with h1 h2
  · simp [h1]
  · simp
    omega
  · simp
    omega

theorem then_isLE {o1 o2 : Ordering} :
    (o1.then o2).isLE ↔ (o1 = .lt ∨ (o1 = .eq ∧ o2.isLE)) := by
  cases o1 <;> cases o2 <;> simp [Ordering.then, Ordering.isLE]

theorem cmpChar_isLE {a b : Char} : (cmpChar a b).isLE ↔ a.toNat ≤ b.toNat := by
  unfold cmpChar
  split_ifs with h1 h2
  · simp [Ordering.isLE]
    omega
  · simp [Ordering.isLE]
    omega
  · simp [Ordering.isLE]
    omega

theorem cmpCharList_symm : ∀ (as bs : List Char), cmpCharList as bs = (cmpCharList bs as).swap
  | [], [] => rfl
  | [], _ :: _ => rfl
  | _ :: _, [] => rfl
  | a :: as, b :: bs => by
    unfold cmpCharList
    rw [cmpChar_symm a b, cmpCharList_symm as bs]
    cases cmpChar b a <;> cases cmpCharList bs as <;> rfl

theorem cmpCharList_isLE_trans :
    ∀ (as bs cs : List Char),
      (cmpCharList as bs).isLE → (cmpCharList bs cs).isLE → (cmpCharList as cs).isLE
  | [], bs, cs, _, _ => by cases cs <;> simp [cmpCharList, Ordering.isLE]
  | _ :: _, [], _, h1, _ => by simp [cmpCharList, Ordering.isLE] at h1
  | _ :: _, _ :: _, [], _, h2 => by simp [cmpCharList, Ordering.isLE] at h2
  | a :: as, b :: bs, c :: cs, h1, h2 => by
    rw [cmpCharList, then_isLE] at h1 h2 ⊢
    rcases h1 with h1 | ⟨h1e, h1r⟩
    · rcases h2 with h2 | ⟨h2e, _⟩
      · left
        rw [cmpChar_lt_iff] at h1 h2 ⊢
        omega
      · left
        rw [cmpChar_eq_iff] at h2e
        rw [← h2e]
        exact h1
    · rcases h2 with h2 | ⟨h2e, h2r⟩
      · left
        rw [cmpChar_eq_iff] at h1e
        rw [h1e]
        exact h2
      · right
        rw [cmpChar_eq_iff] at h1e h2e
        refine ⟨by rw [cmpChar_eq_iff, h1e, h2e], ?_⟩
        exact cmpCharList_isLE_trans as bs cs h1r h2r

theorem cmpStr_symm : CmpSymm cmpStr := fun a b => cmpCharList_symm a.data b.data

theorem cmpStr_leTrans : CmpLeTrans cmpStr :=
  fun a b c => cmpCharList_isLE_trans a.data b.data c.data

theorem cmpOn_symm {f : α → β} {cmp : β → β → Ordering} (h : CmpSymm cmp) :
    CmpSymm (cmpOn f cmp) := fun a b => h (f a) (f b)

theorem cmpOn_leTrans {f : α → β} {cmp : β → β → Ordering} (h : CmpLeTrans cmp) :
    CmpLeTrans (cmpOn f cmp) := fun a b c => h (f a) (f b) (f c)

theorem swap_then (o1 o2 : Ordering) : (o1.then o2).swap = o1.swap.then o2.swap := by
  cases o1 <;> cases o2 <;> rfl

theorem cmpThen_symm {cmp1 cmp2 : α → α → Ordering}
    (h1 : CmpSymm cmp1) (h2 : CmpSymm cmp2) : CmpSymm (cmpThen cmp1 cmp2) := by
  intro a b
  unfold cmpThen
  rw [h1 a b, h2 a b, swap_then]

theorem cmp_gt_of_symm {cmp : α → α → Ordering} (hs : CmpSymm cmp) {a b : α}
    (h : cmp a b = .lt) : cmp b a = .gt := by
  have hba := hs b a
  rw [h] at hba
  simpa [Ordering.swap] using hba

theorem cmp_lt_of_symm {cmp : α → α → Ordering} (hs : CmpSymm cmp) {a b : α}
    (h : cmp a b = .gt) : cmp b a = .lt := by
  have hba := hs b a
  rw [h] at hba
  simpa [Ordering.swap] using hba

theorem cmp_eq_symm {cmp : α → α → Ordering} (hs : CmpSymm cmp) {a b : α}
    (h : cmp a b = .eq) : cmp b a = .eq := by
  have hba := hs b a
  rw [h] at hba
  simpa [Ordering.swap] using hba

theorem cmp_eq_of_isLE_isLE {cmp : α → α → Ordering}
    (hs : CmpSymm cmp) {a b : α}
    (h1 : (cmp a b).isLE) (h2 : (cmp b a).isLE) : cmp a b = .eq := by
  cases hab : cmp a b
  · rw [cmp_gt_of_symm hs hab] at h2
    simp [Ordering.isLE] at h2
  · rfl
  · rw [hab] at h1
    simp [Ordering.isLE] at h1

theorem cmp_lt_of_lt_of_isLE {cmp : α → α → Ordering}
    (hs : CmpSymm cmp) (ht : CmpLeTrans cmp) {a b c : α}
    (h1 : cmp a b = .lt) (h2 : (cmp b c).isLE) : cmp a c = .lt := by
  have hac : (cmp a c).isLE := ht a b c (by rw [h1]; rfl) h2
  cases h : cmp a c
  · rfl
  · have hca : (cmp c a).isLE := by rw [cmp_eq_symm hs h]; rfl
    have hba : (cmp b a).isLE := ht b c a h2 hca
    rw [cmp_gt_of_symm hs h1] at hba
    simp [Ordering.isLE] at hba
  · rw [h] at hac
    simp [Ordering.isLE] at hac

theorem cmp_lt_of_isLE_of_lt {cmp : α → α → Ordering}
    (hs : CmpSymm cmp) (ht : CmpLeTrans cmp) {a b c : α}
    (h1 : (cmp a b).isLE) (h2 : cmp b c = .lt) : cmp a c = .lt := by
  have hac : (cmp a c).isLE := ht a b c h1 (by rw [h2]; rfl)
  cases h : cmp a c
  · rfl
  · have hca : (cmp c a).isLE := by rw [cmp_eq_symm hs h]; rfl
    have hcb : (cmp c b).isLE := ht c a b hca h1
    rw [cmp_gt_of_symm hs h2] at hcb
    simp [Ordering.isLE] at hcb
  · rw [h] at hac
    simp [Ordering.isLE] at hac

theorem cmp_eq_trans {cmp : α → α → Ordering}
    (hs : CmpSymm cmp) (ht : CmpLeTrans cmp) {a b c : α}
    (h1 : cmp a b = .eq) (h2 : cmp b c = .eq) : cmp a c = .eq := by
  have e1 : (cmp a b).isLE := by rw [h1]; rfl
  have e2 : (cmp b c).isLE := by rw [h2]; rfl
  have e1s : (cmp b a).isLE := by rw [cmp_eq_symm hs h1]; rfl
  have e2s : (cmp c b).isLE := by rw [cmp_eq_symm hs h2]; rfl
  exact cmp_eq_of_isLE_isLE hs (ht a b c e1 e2) (ht c b a e2s e1s)

theorem cmpThen_leTrans {cmp1 cmp2 : α → α → Ordering}
    (hs1 : CmpSymm cmp1) (ht1 : CmpLeTrans cmp1) (ht2 : CmpLeTrans cmp2) :
    CmpLeTrans (cmpThen cmp1 cmp2) := by
  intro a b c h1 h2
  unfold cmpThen at h1 h2 ⊢
  rw [then_isLE] at h1 h2 ⊢
  rcases h1 with h1 | ⟨h1e, h1r⟩
  · rcases h2 with h2 | ⟨h2e, _⟩
    · exact Or.inl (cmp_lt_of_lt_of_isLE hs1 ht1 h1 (by rw [h2]; rfl))
    · exact Or.inl (cmp_lt_of_lt_of_isLE hs1 ht1 h1 (by rw [h2e]; rfl))
  · rcases h2 with h2 | ⟨h2e, h2r⟩
    · exact Or.inl (cmp_lt_of_isLE_of_lt hs1 ht1 (by rw [h1e]; rfl) h2)
    · exact Or.inr ⟨cmp_eq_trans hs1 ht1 h1e h2e, ht2 a b c h1r h2r⟩

theorem cmp_isLE_total {cmp : α → α → Ordering} (hs : CmpSymm cmp) (a b : α) :
    (cmp a b).isLE || (cmp b a).isLE := by
  cases h : cmp a b
  · simp [Ordering.isLE]
  · simp [Ordering.isLE]
  · rw [cmp_lt_of_symm hs h]
    simp [Ordering.isLE]

/-! ## Data model

One protocol metadata file, as parsed by `json5.load`.  Each field is
`none` when the JSON object lacks the key; the two mapping fields keep the
insertion order of the JSON text, as Python dicts do. -/

structure FileData where
  name : Option String
  description : Option String
  links : Option (List (String × String))
  categories : Option (List String)
  addresses : Option (List (String × String))
deriving DecidableEq

/-- Abnormal terminations of the scripts: Python exceptions
(`KeyError` from indexing a missing key, a `json5` parse error,
`FileNotFoundError`, the `UnboundLocalError`/`NameError` of referencing an
unassigned local) together with the explicit `sys.exit(1)` calls and the
`raise Exception(...)` calls of `main`. -/
inductive PyError where
  | parseError
  | keyError
  | fileNotFound
  | nameError
  | exitOne
  | invalidJsons
  | includedCanonical
  | duplicatedLabels
deriving DecidableEq

instance exceptDecEq {ε α : Type} [DecidableEq ε] [DecidableEq α] :
    DecidableEq (Except ε α) := fun a b =>
  match a, b with
  | .ok x, .ok y =>
    if h : x = y then isTrue (by rw [h]) else isFalse (fun hc => h (Except.ok.inj hc))
  | .error x, .error y =>
    if h : x = y then isTrue (by rw [h]) else isFalse (fun hc => h (Except.error.inj hc))
  | .ok _, .error _ => isFalse (fun hc => Except.noConfusion hc)
  | .error _, .ok _ => isFalse (fun hc => Except.noConfusion hc)

/-! ## `validate_protocol.py`: single-file validation -/

/-- The `REQUIRED_FIELDS` list of `validate_protocol.py`. -/
def REQUIRED_FIELDS : List String := ["name", "description", "links", "categories"]

/-- Membership test `field in data` for the JSON object behind `FileData`. -/
def hasField (data : FileData) (field : String) : Bool :=
  if field = "name" then data.name.isSome
  else if field = "description" then data.description.isSome
  else if field = "links" then data.links.isSome
  else if field = "categories" then data.categories.isSome
  else if field = "addresses" then data.addresses.isSome
  else false

/-- Translation of `is_valid_address`: `0x`-prefixed, 42 code points long,
and everything after the prefix drawn from the hex digits. -/
def is_valid_address (address : String) : Bool :=
  startswith address "0x" && (address.data.length == 42) &&
    (address.data.drop 2).all (fun c => ("0123456789ABCDEFabcdef".data).contains c)

/-- Translation of `is_valid_file`.  The allowed-category list that the
source loads from `categories.json` at import time is a parameter; a file
whose `json5.load` failed (the caught read error) is `none`. -/
def is_valid_file (allowed : List String) (content : Option FileData) : Bool :=
  match content with
  | none => false
  | some data =>
    let missing := REQUIRED_FIELDS.filter (fun field => ¬ hasField data field)
    if ¬ missing.isEmpty then false
    else
      let categories := data.categories.getD []
      if categories.isEmpty then false
      else
        let invalid_categories := categories.filter (fun category => ¬ allowed.contains category)
        if ¬ invalid_categories.isEmpty then false
        else
          let address_map := data.addresses.getD []
          address_map.all (fun la => is_valid_address la.2)

/-! ## `validate_protocol.py`: duplicate-label check -/

/-- One `(json_file, address_label)` occurrence of an address. -/
abbrev Occurrence := String × String

/-- One entry of the `address_labels` index: a canonical address together
with its occurrences in encounter order. -/
abbrev IndexEntry := String × List Occurrence

/-- Translation of the `defaultdict` update
`address_labels[address.lower()].append((json_file, address_label))`:
append to the existing entry, or create a new entry at the end on first
sight (Python dicts preserve key insertion order). -/
def indexInsert : List IndexEntry → String → Occurrence → List IndexEntry
  | [], a, occ => [(a, [occ])]
  | (k, v) :: rest, a, occ =>
    if k = a then (k, v ++ [occ]) :: rest else (k, v) :: indexInsert rest a occ

/-- The inner loop of `check_duplicated_address_labels` over one record's
`addresses` mapping. -/
def insertRecord (idx : List IndexEntry) (file : String)
    (addrs : List (String × String)) : List IndexEntry :=
  addrs.foldl (fun idx la => indexInsert idx (canon la.2) (file, la.1)) idx

/-- The index-building loop of `check_duplicated_address_labels`.  A file
whose parse failed raises; a record without an `addresses` key raises
`KeyError`, since the source indexes `data['addresses']` unguarded. -/
def buildAddressLabels : List (String × Option FileData) → List IndexEntry →
    Except PyError (List IndexEntry)
  | [], idx => .ok idx
  | (file, content) :: rest, idx =>
    match content with
    | none => .error .parseError
    | some data =>
      match data.addresses with
      | none => .error .keyError
      | some addrs => buildAddressLabels rest (insertRecord idx file addrs)

/-- The set comprehension `{address_label for json_file, address_label in labels}`;
its cardinality is the length of the deduplicated label list. -/
def distinctLabels (occs : List Occurrence) : List String := (occs.map Prod.snd).dedup

/-- The violations that the reporting loop of
`check_duplicated_address_labels` prints: entries with more than one
occurrence whose occurrences carry at least two distinct labels. -/
def dupViolationsOf (idx : List IndexEntry) : List IndexEntry :=
  (idx.filter (fun e => 1 < e.2.length)).filter
    (fun e => 2 ≤ (distinctLabels e.2).length)

/-- Translation of `check_duplicated_address_labels`, applied to the records
read for the given files.  It returns the violation list the source prints;
the source's Boolean result is exactly its non-emptiness. -/
def check_duplicated_address_labels (files : List (String × Option FileData)) :
    Except PyError (List IndexEntry) :=
  match buildAddressLabels files [] with
  | .error e => .error e
  | .ok idx => .ok (dupViolationsOf idx)

/-! ## `validate_protocol.py`: canonical-overlap check -/

/-- The accumulation loop of `check_included_canonical_contracts` over the
directory listing: every listed file except `CANONICAL.jsonc` and
`README.md` is opened and each address whose canonical form lies in the
canonical set is reported as a `(file, label, address)` violation. -/
def collectCanonicalOverlaps (canonSet : List String) :
    List (String × Option FileData) → List (String × String × String) →
    Except PyError (List (String × String × String))
  | [], acc => .ok acc
  | (f, content) :: rest, acc =>
    if f = "CANONICAL.jsonc" ∨ f = "README.md" then
      collectCanonicalOverlaps canonSet rest acc
    else
      match content with
      | none => .error .parseError
      | some data =>
        match data.addresses with
        | none => .error .keyError
        | some addrs =>
          collectCanonicalOverlaps canonSet rest
            (acc ++ (addrs.filter (fun la => canonSet.contains (canon la.2))).map
              (fun la => (f, la.1, la.2)))

/-- Translation of `check_included_canonical_contracts`.  The `json_files`
argument is taken (as in the source) but never consulted: the check loads
`CANONICAL.jsonc` itself and then walks the whole directory listing.  The
returned list is the violations the source prints; its Boolean result is
their non-emptiness. -/
def check_included_canonical_contracts (dir : List (String × Option FileData))
    (json_files : List String) : Except PyError (List (String × String × String)) :=
  match List.lookup "CANONICAL.jsonc" dir with
  | none => .error .fileNotFound
  | some none => .error .parseError
  | some (some cdata) =>
    match cdata.addresses with
    | none => .error .keyError
    | some caddrs =>
      collectCanonicalOverlaps (caddrs.map (fun la => canon la.2)) dir []

/-! ## `validate_protocol.py`: link-liveness check

The outcome of one `urlopen` call: either a status code or a raised
exception (timeout, connection error, HTTP error...). -/

inductive FetchResult where
  | ok (status : Nat)
  | exn (msg : String)
deriving DecidableEq

/-- The body of the per-link loop of `check_invalid_links`.  The threaded
state is the pair of the function-local `status_code` variable (`none`
while still unassigned) and the `has_invalid_links` flag.  When `urlopen`
raises, the handler records the failure, and control then falls through to
`if status_code != 200:`, which raises `NameError` if `status_code` was
never assigned by an earlier successful request. -/
def linkStep (probe : String → FetchResult) (st : Option Nat × Bool) (link : String) :
    Except PyError (Option Nat × Bool) :=
  if link = "" then .ok st
  else if ¬ (startswith link "https://" || startswith link "http://") then .ok (st.1, true)
  else
    match probe link with
    | .ok s => .ok (some s, st.2 || (s != 200))
    | .exn _ =>
      match st.1 with
      | none => .error .nameError
      | some s0 => .ok (some s0, true)

def foldLinks (probe : String → FetchResult) :
    (Option Nat × Bool) → List String → Except PyError (Option Nat × Bool)
  | st, [] => .ok st
  | st, l :: ls =>
    match linkStep probe st l with
    | .error e => .error e
    | .ok st2 => foldLinks probe st2 ls

/-- The per-file loop of `check_invalid_links`; `data['links']` is indexed
unguarded, and `status_code` survives from one file to the next because it
is a local of the whole function. -/
def fileLinks (probe : String → FetchResult) :
    (Option Nat × Bool) → List (String × Option FileData) →
    Except PyError (Option Nat × Bool)
  | st, [] => .ok st
  | st, (_, content) :: rest =>
    match content with
    | none => .error .parseError
    | some data =>
      match data.links with
      | none => .error .keyError
      | some links =>
        match foldLinks probe st (links.map Prod.snd) with
        | .error e => .error e
        | .ok st2 => fileLinks probe st2 rest

/-- Translation of `check_invalid_links`, against a `urlopen` oracle. -/
def check_invalid_links (probe : String → FetchResult)
    (files : List (String × Option FileData)) : Except PyError Bool :=
  match fileLinks probe (none, false) files with
  | .error e => .error e
  | .ok st => .ok st.2

/-! ## `validate_protocol.py`: `main` -/

/-- Python `os.path.splitext(f)[0]` for ordinary file names: everything
before the last dot, or the whole name when there is none. -/
def splitextStem (f : String) : String :=
  let parts := pySplit f "."
  if parts.length ≤ 1 then f else String.intercalate "." parts.dropLast

/-- The list
`[f for f in sorted(os.listdir(base_dir)) if f.endswith(".json") or f.endswith(".jsonc")]`. -/
def jsonListing (dir : List (String × Option FileData)) : List String :=
  (sortLe (fun a b => (cmpStr a b).isLE) (dir.map Prod.fst)).filter
    (fun f => endswith f ".json" || endswith f ".jsonc")

/-- Reading a named file from the directory (the result of `json5.load`,
`none` on a parse failure). -/
def readFile (dir : List (String × Option FileData)) (f : String) : Option FileData :=
  (List.lookup f dir).getD none

/-- The named files paired with their contents, as the corpus checks see them. -/
def withData (dir : List (String × Option FileData)) (names : List String) :
    List (String × Option FileData) :=
  names.map (fun f => (f, readFile dir f))

/-- The `--protocol` filter of `main`:
`[f for f in json_files if os.path.splitext(f)[0].lower() == args.protocol.lower()]`. -/
def selectedFiles (dir : List (String × Option FileData)) (protocol : String) :
    List String :=
  (jsonListing dir).filter (fun f => canon (splitextStem f) == canon protocol)

/-- Lines 182-191 of `main`: run the canonical-overlap check, then the
duplicate-label check, then (under `--link`) the link check whose Boolean
result is discarded, then raise on the collected corpus violations. -/
def runChecks (dir : List (String × Option FileData)) (json_files : List String)
    (link : Bool) (probe : String → FetchResult) : Except PyError Unit :=
  match check_included_canonical_contracts dir json_files with
  | .error e => .error e
  | .ok canonVs =>
    match check_duplicated_address_labels (withData dir json_files) with
    | .error e => .error e
    | .ok dupVs =>
      match (if link then
               match check_invalid_links probe (withData dir json_files) with
               | .error e => Except.error e
               | .ok _ => Except.ok ()
             else Except.ok ()) with
      | .error e => .error e
      | .ok _ =>
        if ¬ canonVs.isEmpty then .error .includedCanonical
        else if ¬ dupVs.isEmpty then .error .duplicatedLabels
        else .ok ()

/-- Translation of `main` (after argument parsing, for an existing network
directory `dir`).  `Except.ok ()` is exit status zero; every `Except.error`
is a non-zero exit (a `sys.exit(1)` or an uncaught exception).  In
`--protocol` mode the single-file validity is computed and printed but does
not influence control flow; in whole-corpus mode an empty listing is
`sys.exit(0)` and any invalid file raises before the corpus checks run. -/
def main (allowed : List String) (dir : List (String × Option FileData))
    (protocol : Option String) (link : Bool) (probe : String → FetchResult) :
    Except PyError Unit :=
  match protocol with
  | some p =>
    match selectedFiles dir p with
    | [] => .error .exitOne
    | f :: rest =>
      let _is_valid := is_valid_file allowed (readFile dir f)
      runChecks dir (f :: rest) link probe
  | none =>
    let json_files := jsonListing dir
    if json_files.isEmpty then .ok ()
    else
      let invalid := json_files.filter (fun f => ¬ is_valid_file allowed (readFile dir f))
      if ¬ invalid.isEmpty then .error .invalidJsons
      else runChecks dir json_files link probe

/-! ## `ProtocolsTable.py`: the CSV exporter -/

/-- One exported CSV row. -/
structure Row where
  name : String
  ctype : String
  csubtype : String
  contract : String
  address : String
  all_categories : String
deriving DecidableEq

/-- Python tuple comparison for `sorted(addresses.items())`. -/
def cmpPair : (String × String) → (String × String) → Ordering :=
  cmpThen (cmpOn Prod.fst cmpStr) (cmpOn Prod.snd cmpStr)

/-- The sort key `(x['ctype'], x['csubtype'], x['name'], x['contract'])`
of `write_csv`, compared as Python compares tuples of strings. -/
def cmpRow : Row → Row → Ordering :=
  cmpThen (cmpOn Row.ctype cmpStr)
    (cmpThen (cmpOn Row.csubtype cmpStr)
      (cmpThen (cmpOn Row.name cmpStr) (cmpOn Row.contract cmpStr)))

def pairLE (a b : String × String) : Bool := (cmpPair a b).isLE

def rowLE (a b : Row) : Bool := (cmpRow a b).isLE

/-- Translation of `parse_protocol_file`.  A file whose read failed returns
no rows (the caught exceptions); so do a missing/empty category list and a
first category that does not split into exactly two parts on `::`.  The
cleaned description the source computes is used by no row and is omitted.
One row per entry of `addresses`, iterated as `sorted(addresses.items())`,
with the address lower-cased. -/
def parse_protocol_file (content : Option FileData) : List Row :=
  match content with
  | none => []
  | some data =>
    let name := data.name.getD ""
    match data.categories.getD [] with
    | [] => []
    | first_category :: restCats =>
      match pySplit first_category "::" with
      | [t, st] =>
        let all_categories := String.intercalate ";" (first_category :: restCats)
        let addresses := data.addresses.getD []
        (sortLe pairLE addresses).map
          (fun la => ⟨name, t, st, la.1, canon la.2, all_categories⟩)
      | _ => []

/-- Translation of `write_csv`: nothing is written for an empty row list;
otherwise the rows are written sorted by
`(ctype, csubtype, name, contract)` under Python's stable `sorted`. -/
def write_csv (rows : List Row) : Option (List Row) :=
  if rows.isEmpty then none else some (sortLe rowLE rows)

/-! ## `check_verified_contracts.py`: the BlockVision probe -/

/-- The JSON body of a BlockVision response: undecodable, decodable but not
an object, or an object with optional `code` and `result` members (a JSON
`null` and an absent key are both `None` to `dict.get`, hence one `none`). -/
inductive BvJson where
  | decodeError
  | notDict
  | dict (code : Option Int) (result : Option String)
deriving DecidableEq

/-- The outcome of one `requests.get` call against the BlockVision API. -/
inductive ApiOutcome where
  | timeout
  | requestException (msg : String)
  | http (status : Nat) (body : BvJson)
deriving DecidableEq

/-- Translation of `verify_contract_on_blockvision` against an HTTP oracle:
every probe outcome is converted into a `(is_valid, status_message)` pair;
no outcome escapes as an exception.  Interpolated message texts are
abbreviated to their fixed prefixes. -/
def verify_contract_on_blockvision (api : String → ApiOutcome) (address : String) :
    Bool × String :=
  match api address with
  | .timeout => (false, "Request timeout")
  | .requestException msg => (false, "Request failed: " ++ msg)
  | .http status body =>
    if status = 401 then (false, "Authentication failed")
    else if status = 429 then (false, "Rate limit exceeded")
    else if status != 200 then (false, "HTTP error")
    else
      match body with
      | .decodeError => (false, "Invalid JSON response")
      | .notDict => (false, "Invalid response format")
      | .dict code result =>
        if code = some 0 then
          match result with
          | some _ => (true, "Verified")
          | none => (false, "Not verified")
        else (false, "API error")

/-! ## Pure characterizations of the corpus checks

The recursions above mirror the Python loops; the definitions below
re-express their successful runs as folds over a flattened occurrence
stream, which is what the claim proofs induct on. -/

/-- The `addresses` mapping a record contributes (empty for a record the
check would fail on; the bridge lemmas only use this under the hypothesis
that every read succeeds). -/
def recordAddresses (content : Option FileData) : List (String × String) :=
  (content.bind FileData.addresses).getD []

/-- The corpus flattened to `(canonical address, (file, label))` triples in
encounter order: files in order, each record's mapping in insertion order. -/
def stream (files : List (String × Option FileData)) : List (String × Occurrence) :=
  files.flatMap (fun p => (recordAddresses p.2).map (fun la => (canon la.2, (p.1, la.1))))

/-- Folding the index over a flattened stream. -/
def buildIndexAux (idx : List IndexEntry) (s : List (String × Occurrence)) :
    List IndexEntry :=
  s.foldl (fun idx t => indexInsert idx t.1 t.2) idx

/-- Every `(file, label)` occurrence of canonical address `a` across the
corpus, in encounter order. -/
def occurrencesOf (files : List (String × Option FileData)) (a : String) :
    List Occurrence :=
  ((stream files).filter (fun t => t.1 == a)).map Prod.snd

/-- The duplicate-label violations of a corpus whose reads all succeed. -/
def dupViolationsPure (files : List (String × Option FileData)) : List IndexEntry :=
  dupViolationsOf (buildIndexAux [] (stream files))

theorem insertRecord_eq_buildIndexAux (idx : List IndexEntry) (file : String)
    (addrs : List (String × String)) :
    insertRecord idx file addrs =
      buildIndexAux idx (addrs.map (fun la => (canon la.2, (file, la.1)))) := by
  unfold insertRecord buildIndexAux
  rw [List.foldl_map]

theorem buildAddressLabels_ok (files : List (String × Option FileData)) :
    ∀ (idx : List IndexEntry),
      (∀ p ∈ files, (p.2.bind FileData.addresses).isSome) →
      buildAddressLabels files idx = .ok (buildIndexAux idx (stream files)) := by
  induction files with
  | nil => intro idx _; rfl
  | cons p rest ih =>
    intro idx hread
    obtain ⟨file, content⟩ := p
    have hhead := hread (file, content) (List.mem_cons_self _ _)
    cases content with
    | none => simp [Option.bind] at hhead
    | some data =>
      cases haddr : data.addresses with
      | none => simp [Option.bind, haddr] at hhead
      | some addrs =>
        show (match data.addresses with
              | none => Except.error PyError.keyError
              | some addrs => buildAddressLabels rest (insertRecord idx file addrs)) = _
        rw [haddr]
        show buildAddressLabels rest (insertRecord idx file addrs) = _
        rw [ih _ (fun p hp => hread p (List.mem_cons_of_mem _ hp))]
        unfold stream
        rw [List.flatMap_cons]
        unfold buildIndexAux
        rw [List.foldl_append]
        rw [insertRecord_eq_buildIndexAux]
        unfold buildIndexAux recordAddresses
        rw [show Option.bind (some data) FileData.addresses = some addrs from haddr]
        rfl

theorem check_dup_ok (files : List (String × Option FileData))
    (hread : ∀ p ∈ files, (p.2.bind FileData.addresses).isSome) :
    check_duplicated_address_labels files = .ok (dupViolationsPure files) := by
  unfold check_duplicated_address_labels
  rw [buildAddressLabels_ok files [] hread]
  rfl

theorem filter_indexInsert (idx : List IndexEntry) (b : String) (occ : Occurrence)
    (a : String) :
    (indexInsert idx b occ).filter (fun e => e.1 == a) =
      if a = b then
        match idx.filter (fun e => e.1 == a) with
        | [] => [(b, [occ])]
        | e :: rest => (e.1, e.2 ++ [occ]) :: rest
      else idx.filter (fun e => e.1 == a) := by
  induction idx with
  | nil =>
    by_cases hab : a = b
    · subst hab
      simp [indexInsert]
    · simp [indexInsert, List.filter_cons, Ne.symm hab, hab]
  | cons kv rest ih =>
    obtain ⟨k, v⟩ := kv
    by_cases hkb : k = b
    · subst hkb
      by_cases hab : a = k
      · subst hab
        simp [indexInsert, List.filter_cons]
      · have hka : ¬ (k = a) := fun h => hab h.symm
        simp [indexInsert, List.filter_cons, hka, hab]
    · by_cases hka : k = a
      · have hab : ¬ (a = b) := fun h => hkb (hka.trans h)
        have ht : ((k, v).1 == a) = true := by simp [hka]
        simp only [indexInsert, if_neg hkb, List.filter_cons, ht, if_true]
        rw [ih]
        simp only [if_neg hab]
      · have ht : ((k, v).1 == a) = false := by simp [hka]
        simp only [indexInsert, if_neg hkb, List.filter_cons, ht, Bool.false_eq_true,
          if_false]
        rw [ih]

theorem filter_buildIndexAux (s : List (String × Occurrence)) :
    ∀ (idx : List IndexEntry) (a : String),
      (buildIndexAux idx s).filter (fun e => e.1 == a) =
        match idx.filter (fun e => e.1 == a) with
        | [] =>
          if (s.filter (fun t => t.1 == a)).isEmpty then []
          else [(a, (s.filter (fun t => t.1 == a)).map Prod.snd)]
        | e :: rest => (e.1, e.2 ++ (s.filter (fun t => t.1 == a)).map Prod.snd) :: rest := by
  induction s with
  | nil =>
    intro idx a
    show idx.filter (fun e => e.1 == a) = _
    cases h : idx.filter (fun e => e.1 == a) with
    | nil => simp
    | cons e rest => simp
  | cons t s' ih =>
    intro idx a
    show (buildIndexAux (indexInsert idx t.1 t.2) s').filter (fun e => e.1 == a) = _
    rw [ih, filter_indexInsert]
    by_cases hab : a = t.1
    · rw [if_pos hab]
      have ht : (t.1 == a) = true := by simp [hab]
      cases hfi : idx.filter (fun e => e.1 == a) with
      | nil =>
        simp only [List.filter_cons, ht, if_pos]
        simp [hab]
      | cons e rest =>
        simp only [List.filter_cons, ht, if_pos]
        simp [List.append_assoc]
    · rw [if_neg hab]
      have ht : (t.1 == a) = false := by
        have : t.1 ≠ a := fun h => hab h.symm
        simp [this]
      simp only [List.filter_cons, ht]
      simp only [Bool.false_eq_true, if_neg (fun h : False => h.elim)]

theorem filter_dupViolations (idx : List IndexEntry) (a : String) :
    (dupViolationsOf idx).filter (fun e => e.1 == a) =
      dupViolationsOf (idx.filter (fun e => e.1 == a)) := by
  unfold dupViolationsOf
  simp only [List.filter_filter]
  apply List.filter_congr
  intro e _
  cases h1 : (decide (1 < e.2.length)) <;>
    cases h2 : (decide (2 ≤ (distinctLabels e.2).length)) <;>
      cases h3 : (e.1 == a) <;> simp [h1, h2, h3]

theorem distinctLabels_length_le (occs : List Occurrence) :
    (distinctLabels occs).length ≤ occs.length := by
  unfold distinctLabels
  calc ((occs.map Prod.snd).dedup).length
      ≤ (occs.map Prod.snd).length := (List.dedup_sublist _).length_le
    _ = occs.length := List.length_map _ _

/-! ## Claim C1 -/

/-- C1: for every corpus (whose records all parse and carry an `addresses`
key, the reads the check performs), the duplicate-label check emits exactly
one violation per canonical (lower-cased) address whose occurrences across
all records carry at least two distinct (case-sensitive) label strings —
that violation lists every `(file, label)` occurrence in encounter order —
and no violation for any other address; in particular an address occurring
any number of times under one and the same label yields none. -/
theorem C1_duplicate_label_check (files : List (String × Option FileData)) (a : String)
    (hread : ∀ p ∈ files, (p.2.bind FileData.addresses).isSome) :
    ∃ vs, check_duplicated_address_labels files = .ok vs ∧
      vs.filter (fun e => e.1 == a) =
        (if 2 ≤ (distinctLabels (occurrencesOf files a)).length
         then [(a, occurrencesOf files a)] else []) := by
  refine ⟨dupViolationsPure files, check_dup_ok files hread, ?_⟩
  unfold dupViolationsPure
  rw [filter_dupViolations, filter_buildIndexAux]
  simp only [List.filter_nil]
  by_cases hocc : ((stream files).filter (fun t => t.1 == a)).isEmpty
  · have hempty : occurrencesOf files a = [] := by
      unfold occurrencesOf
      rw [List.isEmpty_iff.mp hocc]
      rfl
    rw [if_pos hocc, hempty]
    simp [dupViolationsOf, distinctLabels]
  · rw [if_neg hocc]
    have hoccs : ((stream files).filter (fun t => t.1 == a)).map Prod.snd =
        occurrencesOf files a := rfl
    rw [hoccs]
    by_cases h2 : 2 ≤ (distinctLabels (occurrencesOf files a)).length
    · have hlen : 1 < (occurrencesOf files a).length := by
        have := distinctLabels_length_le (occurrencesOf files a)
        omega
      rw [if_pos h2]
      simp [dupViolationsOf, List.filter_cons, hlen, h2]
    · rw [if_neg h2]
      simp [dupViolationsOf, List.filter_cons, h2]
      intro _
      omega

/-- The end-to-end exhibit of the spec: `alpha.json` labels the address
`Pool`, `beta.json` labels the same address (up to case) `Pool2`. -/
def fileAlpha : FileData :=
  ⟨some "Alpha", some "d", some [], some ["DeFi::Lending"],
    some [("Pool", "0xAAAA1111AAAA1111AAAA1111AAAA1111AAAA1111")]⟩

def fileBeta : FileData :=
  ⟨some "Beta", some "d", some [], some ["DeFi::Lending"],
    some [("Pool2", "0xaaaa1111aaaa1111aaaa1111aaaa1111aaaa1111")]⟩

def corpusAB : List (String × Option FileData) :=
  [("alpha.json", some fileAlpha), ("beta.json", some fileBeta)]

theorem C1_witness : ∃ vs,
    check_duplicated_address_labels corpusAB = .ok vs ∧
      vs.filter (fun e => e.1 == "0xaaaa1111aaaa1111aaaa1111aaaa1111aaaa1111") =
        (if 2 ≤ (distinctLabels
              (occurrencesOf corpusAB "0xaaaa1111aaaa1111aaaa1111aaaa1111aaaa1111")).length
         then [("0xaaaa1111aaaa1111aaaa1111aaaa1111aaaa1111",
                occurrencesOf corpusAB "0xaaaa1111aaaa1111aaaa1111aaaa1111aaaa1111")]
         else []) :=
  C1_duplicate_label_check corpusAB "0xaaaa1111aaaa1111aaaa1111aaaa1111aaaa1111"
    (by decide)

/-! ## Claim C2 -/

/-- The violations one directory entry contributes to the canonical-overlap
report: nothing for the excluded names, otherwise one `(file, label,
address)` triple per declared address whose canonical form lies in the
canonical set. -/
def overlapRows (canonSet : List String) (p : String × Option FileData) :
    List (String × String × String) :=
  if p.1 = "CANONICAL.jsonc" ∨ p.1 = "README.md" then []
  else ((recordAddresses p.2).filter (fun la => canonSet.contains (canon la.2))).map
    (fun la => (p.1, la.1, la.2))

/-- The canonical-overlap violations of a directory whose reads all succeed. -/
def pureOverlaps (canonSet : List String) (dir : List (String × Option FileData)) :
    List (String × String × String) :=
  dir.flatMap (overlapRows canonSet)

theorem collectCanonicalOverlaps_ok (canonSet : List String)
    (dir : List (String × Option FileData)) :
    ∀ acc,
      (∀ p ∈ dir, p.1 ≠ "CANONICAL.jsonc" → p.1 ≠ "README.md" →
        (p.2.bind FileData.addresses).isSome) →
      collectCanonicalOverlaps canonSet dir acc = .ok (acc ++ pureOverlaps canonSet dir) := by
  induction dir with
  | nil =>
    intro acc _
    simp [collectCanonicalOverlaps, pureOverlaps]
  | cons p rest ih =>
    intro acc hread
    obtain ⟨f, content⟩ := p
    have htail : ∀ p ∈ rest, p.1 ≠ "CANONICAL.jsonc" → p.1 ≠ "README.md" →
        (p.2.bind FileData.addresses).isSome :=
      fun q hq => hread q (List.mem_cons_of_mem _ hq)
    by_cases hex : f = "CANONICAL.jsonc" ∨ f = "README.md"
    · unfold collectCanonicalOverlaps
      rw [if_pos hex, ih acc htail]
      unfold pureOverlaps
      rw [List.flatMap_cons]
      unfold overlapRows
      rw [if_pos hex]
      rfl
    · push_neg at hex
      have hhead := hread (f, content) (List.mem_cons_self _ _) hex.1 hex.2
      cases content with
      | none => simp [Option.bind] at hhead
      | some data =>
        cases haddr : data.addresses with
        | none => simp [Option.bind, haddr] at hhead
        | some addrs =>
          unfold collectCanonicalOverlaps
          rw [if_neg (by push_neg; exact hex)]
          show (match data.addresses with
                | none => Except.error PyError.keyError
                | some addrs =>
                  collectCanonicalOverlaps canonSet rest
                    (acc ++ (addrs.filter
                        (fun la : String × String => canonSet.contains (canon la.2))).map
                      (fun la : String × String => (f, la.1, la.2)))) = _
          rw [haddr]
          show collectCanonicalOverlaps canonSet rest
              (acc ++ (addrs.filter
                  (fun la : String × String => canonSet.contains (canon la.2))).map
                (fun la : String × String => (f, la.1, la.2))) = _
          rw [ih _ htail]
          unfold pureOverlaps
          rw [List.flatMap_cons]
          unfold overlapRows
          rw [if_neg (by push_neg; exact hex)]
          have hrec : recordAddresses ((f, some data) : String × Option FileData).2 = addrs := by
            unfold recordAddresses
            show (Option.bind (some data) FileData.addresses).getD [] = addrs
            rw [show Option.bind (some data) FileData.addresses = some addrs from haddr]
            rfl
          rw [hrec, List.append_assoc]

theorem check_included_ok (dir : List (String × Option FileData))
    (json_files : List String) (cdata : FileData) (caddrs : List (String × String))
    (hlook : List.lookup "CANONICAL.jsonc" dir = some (some cdata))
    (haddr : cdata.addresses = some caddrs)
    (hread : ∀ p ∈ dir, p.1 ≠ "CANONICAL.jsonc" → p.1 ≠ "README.md" →
      (p.2.bind FileData.addresses).isSome) :
    check_included_canonical_contracts dir json_files =
      .ok (pureOverlaps (caddrs.map (fun la => canon la.2)) dir) := by
  unfold check_included_canonical_contracts
  rw [hlook]
  show (match cdata.addresses with
        | none => Except.error PyError.keyError
        | some caddrs =>
          collectCanonicalOverlaps (caddrs.map
            (fun la : String × String => canon la.2)) dir []) = _
  rw [haddr]
  show collectCanonicalOverlaps (caddrs.map
      (fun la : String × String => canon la.2)) dir [] = _
  rw [collectCanonicalOverlaps_ok _ dir [] hread]
  rfl

/-- C2: for every canonical set (read from `CANONICAL.jsonc`) and every
directory whose non-excluded entries all parse and carry an `addresses`
key, the canonical-overlap check reports a `(file, label, address)`
violation exactly for the declared addresses of non-excluded records whose
lower-cased form lies in the canonical set — so a record declaring no such
address contributes nothing, and whether an entry is flagged depends only
on its canonical address, never on its label text. -/
theorem C2_canonical_overlap_check (dir : List (String × Option FileData))
    (json_files : List String) (cdata : FileData) (caddrs : List (String × String))
    (hlook : List.lookup "CANONICAL.jsonc" dir = some (some cdata))
    (haddr : cdata.addresses = some caddrs)
    (hread : ∀ p ∈ dir, p.1 ≠ "CANONICAL.jsonc" → p.1 ≠ "README.md" →
      (p.2.bind FileData.addresses).isSome) :
    ∃ vs, check_included_canonical_contracts dir json_files = .ok vs ∧
      ∀ f l x, (f, l, x) ∈ vs ↔
        (f ≠ "CANONICAL.jsonc" ∧ f ≠ "README.md" ∧
          ∃ d m, (f, some d) ∈ dir ∧ d.addresses = some m ∧ (l, x) ∈ m ∧
            canon x ∈ caddrs.map (fun la => canon la.2)) := by
  refine ⟨pureOverlaps (caddrs.map (fun la => canon la.2)) dir,
    check_included_ok dir json_files cdata caddrs hlook haddr hread, ?_⟩
  intro f l x
  unfold pureOverlaps
  rw [List.mem_flatMap]
  constructor
  · rintro ⟨p, hp, hrow⟩
    unfold overlapRows at hrow
    by_cases hex : p.1 = "CANONICAL.jsonc" ∨ p.1 = "README.md"
    · rw [if_pos hex] at hrow
      cases hrow
    · rw [if_neg hex] at hrow
      push_neg at hex
      rcases List.mem_map.mp hrow with ⟨la, hla, heq⟩
      rcases List.mem_filter.mp hla with ⟨hmem, hcond⟩
      have hf : p.1 = f := congrArg Prod.fst heq
      have hl : la.1 = l := congrArg (fun t => t.2.1) heq
      have hx : la.2 = x := congrArg (fun t => t.2.2) heq
      subst hf
      have hsome := hread p hp hex.1 hex.2
      cases hcontent : p.2 with
      | none =>
        rw [hcontent] at hsome
        simp [Option.bind] at hsome
      | some data =>
        cases hda : data.addresses with
        | none =>
          rw [hcontent] at hsome
          simp [Option.bind, hda] at hsome
        | some m =>
          refine ⟨hex.1, hex.2, data, m, ?_, hda, ?_, ?_⟩
          · rw [← hcontent]
            exact hp
          · rw [← hl, ← hx]
            have : recordAddresses p.2 = m := by
              unfold recordAddresses
              rw [hcontent]
              show (Option.bind (some data) FileData.addresses).getD [] = m
              rw [show Option.bind (some data) FileData.addresses = some m from hda]
              rfl
            rw [← this]
            exact hmem
          · rw [← hx]
            exact List.elem_iff.mp hcond
  · rintro ⟨hf1, hf2, d, m, hdir, hdm, hlm, hcx⟩
    refine ⟨(f, some d), hdir, ?_⟩
    unfold overlapRows
    rw [if_neg (by push_neg; exact ⟨hf1, hf2⟩)]
    apply List.mem_map.mpr
    refine ⟨(l, x), ?_, rfl⟩
    apply List.mem_filter.mpr
    constructor
    · show (l, x) ∈ recordAddresses (some d)
      unfold recordAddresses
      show (l, x) ∈ (Option.bind (some d) FileData.addresses).getD []
      rw [show Option.bind (some d) FileData.addresses = some m from hdm]
      exact hlm
    · exact List.elem_iff.mpr hcx

def canonicalData : FileData :=
  ⟨some "Canonical", some "shared", some [], some ["DeFi::Lending"],
    some [("WETH", "0xCCCC1111CCCC1111CCCC1111CCCC1111CCCC1111")]⟩

def fileOverlap : FileData :=
  ⟨some "Ov", some "d", some [], some ["DeFi::Lending"],
    some [("MyWeth", "0xcccc1111cccc1111cccc1111cccc1111cccc1111")]⟩

def dirOverlap : List (String × Option FileData) :=
  [("CANONICAL.jsonc", some canonicalData), ("ov.json", some fileOverlap)]

theorem C2_witness : ∃ vs,
    check_included_canonical_contracts dirOverlap [] = .ok vs ∧
      ∀ f l x, (f, l, x) ∈ vs ↔
        (f ≠ "CANONICAL.jsonc" ∧ f ≠ "README.md" ∧
          ∃ d m, (f, some d) ∈ dirOverlap ∧ d.addresses = some m ∧ (l, x) ∈ m ∧
            canon x ∈ [("WETH", "0xCCCC1111CCCC1111CCCC1111CCCC1111CCCC1111")].map
              (fun la => canon la.2)) :=
  C2_canonical_overlap_check dirOverlap [] canonicalData
    [("WETH", "0xCCCC1111CCCC1111CCCC1111CCCC1111CCCC1111")] (by decide) (by decide)
    (by decide)

/-! ## Claim C3 -/

theorem lookup_mem {α β : Type} [BEq α] [LawfulBEq α] {l : List (α × β)} {k : α} {v : β}
    (h : List.lookup k l = some v) : (k, v) ∈ l := by
  rcases List.lookup_eq_some_iff.mp h with ⟨l1, l2, rfl, _⟩
  simp

theorem readFile_spec (dir : List (String × Option FileData)) (f : String)
    (hrd : ∀ q ∈ dir, ∃ d m, q.2 = some d ∧ d.addresses = some m)
    (hf : f ∈ jsonListing dir) :
    ∃ d m, readFile dir f = some d ∧ d.addresses = some m := by
  have hf2 : f ∈ dir.map Prod.fst := by
    unfold jsonListing at hf
    exact (perm_sortLe _ _).mem_iff.mp (List.mem_filter.mp hf).1
  have hsome : (List.lookup f dir).isSome := by
    rw [List.lookup_isSome_iff]
    rcases List.mem_map.mp hf2 with ⟨p, hp, hfp⟩
    exact ⟨p, hp, by simp [hfp]⟩
  obtain ⟨v, hv⟩ := Option.isSome_iff_exists.mp hsome
  obtain ⟨d, m, hd, hm⟩ := hrd (f, v) (lookup_mem hv)
  refine ⟨d, m, ?_, hm⟩
  unfold readFile
  rw [hv]
  exact hd

theorem withData_read (dir : List (String × Option FileData)) (jf : List String)
    (hrd : ∀ q ∈ dir, ∃ d m, q.2 = some d ∧ d.addresses = some m)
    (hsub : ∀ f ∈ jf, f ∈ jsonListing dir) :
    ∀ p ∈ withData dir jf, (p.2.bind FileData.addresses).isSome := by
  intro p hp
  rcases List.mem_map.mp hp with ⟨f, hf, rfl⟩
  obtain ⟨d, m, hd, hm⟩ := readFile_spec dir f hrd (hsub f hf)
  show ((readFile dir f).bind FileData.addresses).isSome
  rw [hd]
  simp [Option.bind, hm]

theorem dir_read (dir : List (String × Option FileData))
    (hrd : ∀ q ∈ dir, ∃ d m, q.2 = some d ∧ d.addresses = some m) :
    ∀ p ∈ dir, p.1 ≠ "CANONICAL.jsonc" → p.1 ≠ "README.md" →
      (p.2.bind FileData.addresses).isSome := by
  intro p hp _ _
  obtain ⟨d, m, hd, hm⟩ := hrd p hp
  rw [hd]
  simp [Option.bind, hm]

theorem runChecks_ok_iff (dir : List (String × Option FileData)) (jf : List String)
    (probe : String → FetchResult) (cvs : List (String × String × String))
    (dvs : List IndexEntry)
    (hc : check_included_canonical_contracts dir jf = .ok cvs)
    (hd : check_duplicated_address_labels (withData dir jf) = .ok dvs) :
    (runChecks dir jf false probe = .ok () ↔ (cvs = [] ∧ dvs = [])) := by
  unfold runChecks
  rw [hc, hd]
  show (if ¬ cvs.isEmpty then Except.error PyError.includedCanonical
        else if ¬ dvs.isEmpty then Except.error PyError.duplicatedLabels
        else Except.ok ()) = Except.ok () ↔ _
  rcases cvs with _ | ⟨c, cs⟩
  · rcases dvs with _ | ⟨d0, ds⟩
    · simp
    · simp
  · simp

theorem runChecks_full (dir : List (String × Option FileData)) (jf : List String)
    (probe : String → FetchResult) (cdata : FileData) (caddrs : List (String × String))
    (hrd : ∀ q ∈ dir, ∃ d m, q.2 = some d ∧ d.addresses = some m)
    (hlook : List.lookup "CANONICAL.jsonc" dir = some (some cdata))
    (haddr : cdata.addresses = some caddrs)
    (hsub : ∀ f ∈ jf, f ∈ jsonListing dir) :
    (runChecks dir jf false probe = .ok () ↔
      (check_included_canonical_contracts dir jf = .ok [] ∧
       check_duplicated_address_labels (withData dir jf) = .ok [])) := by
  have hc := check_included_ok dir jf cdata caddrs hlook haddr (dir_read dir hrd)
  have hd := check_dup_ok (withData dir jf) (withData_read dir jf hrd hsub)
  rw [runChecks_ok_iff dir jf probe _ _ hc hd]
  constructor
  · rintro ⟨h1, h2⟩
    rw [hc, h1, hd, h2]
    exact ⟨rfl, rfl⟩
  · rintro ⟨h1, h2⟩
    rw [hc] at h1
    rw [hd] at h2
    exact ⟨Except.ok.inj h1, Except.ok.inj h2⟩

theorem main_protocol_eq (allowed : List String) (dir : List (String × Option FileData))
    (p : String) (link : Bool) (probe : String → FetchResult) :
    main allowed dir (some p) link probe =
      (match selectedFiles dir p with
       | [] => Except.error PyError.exitOne
       | f :: rest => runChecks dir (f :: rest) link probe) := by
  show (match selectedFiles dir p with
        | [] => Except.error PyError.exitOne
        | f :: rest =>
          let _is_valid := is_valid_file allowed (readFile dir f)
          runChecks dir (f :: rest) link probe) =
      (match selectedFiles dir p with
       | [] => Except.error PyError.exitOne
       | f :: rest => runChecks dir (f :: rest) link probe)
  cases selectedFiles dir p <;> rfl

theorem main_none_eq (allowed : List String) (dir : List (String × Option FileData))
    (link : Bool) (probe : String → FetchResult) :
    main allowed dir none link probe =
      (if (jsonListing dir).isEmpty then Except.ok ()
       else if ¬ ((jsonListing dir).filter
           (fun f => ¬ is_valid_file allowed (readFile dir f))).isEmpty then
         Except.error PyError.invalidJsons
       else runChecks dir (jsonListing dir) link probe) := rfl

/-- C3 (amended): with `--link` off and every file of the directory
readable with an `addresses` key (and `CANONICAL.jsonc` present), a
whole-corpus run exits zero iff the corpus is empty or every file passes
the schema check and both corpus checks return no violation; but a run
restricted to one protocol with `--protocol` exits zero iff the protocol
was found and the two corpus checks (over the matching files) return no
violation — the schema result of the selected file is printed and then
ignored, so a schema failure alone does not make the outcome non-zero. -/
theorem C3_exit_code_amended (allowed : List String)
    (dir : List (String × Option FileData)) (p : String)
    (probe : String → FetchResult) (cdata : FileData) (caddrs : List (String × String))
    (hrd : ∀ q ∈ dir, ∃ d m, q.2 = some d ∧ d.addresses = some m)
    (hlook : List.lookup "CANONICAL.jsonc" dir = some (some cdata))
    (haddr : cdata.addresses = some caddrs) :
    (main allowed dir (some p) false probe = .ok () ↔
       (selectedFiles dir p ≠ [] ∧
        check_included_canonical_contracts dir (selectedFiles dir p) = .ok [] ∧
        check_duplicated_address_labels (withData dir (selectedFiles dir p)) = .ok [])) ∧
    (main allowed dir none false probe = .ok () ↔
       (jsonListing dir = [] ∨
        ((∀ f ∈ jsonListing dir, is_valid_file allowed (readFile dir f) = true) ∧
         check_included_canonical_contracts dir (jsonListing dir) = .ok [] ∧
         check_duplicated_address_labels (withData dir (jsonListing dir)) = .ok []))) := by
  constructor
  · rw [main_protocol_eq]
    cases hsel : selectedFiles dir p with
    | nil =>
      simp
    | cons f rest =>
      have hsub : ∀ g ∈ f :: rest, g ∈ jsonListing dir := by
        intro g hg
        rw [← hsel] at hg
        exact (List.mem_filter.mp hg).1
      rw [runChecks_full dir (f :: rest) probe cdata caddrs hrd hlook haddr hsub]
      simp
  · rw [main_none_eq]
    by_cases hemp : (jsonListing dir).isEmpty
    · rw [if_pos hemp]
      simp [List.isEmpty_iff.mp hemp]
    · have hne : jsonListing dir ≠ [] := by
        intro h
        rw [h] at hemp
        simp at hemp
      by_cases hinv : ((jsonListing dir).filter
          (fun f => ¬ is_valid_file allowed (readFile dir f))).isEmpty
      · have hall : ∀ f ∈ jsonListing dir, is_valid_file allowed (readFile dir f) = true := by
          have h0 := List.isEmpty_iff.mp hinv
          rw [List.filter_eq_nil_iff] at h0
          intro f hf
          have := h0 f hf
          simpa using this
        rw [if_neg hemp, if_neg (by simpa using hinv)]
        rw [runChecks_full dir (jsonListing dir) probe cdata caddrs hrd hlook haddr
          (fun f hf => hf)]
        constructor
        · rintro ⟨h1, h2⟩
          exact Or.inr ⟨hall, h1, h2⟩
        · rintro (h | ⟨_, h1, h2⟩)
          · exact absurd h hne
          · exact ⟨h1, h2⟩
      · have hnall : ¬ ∀ f ∈ jsonListing dir, is_valid_file allowed (readFile dir f) = true := by
          intro hall
          apply hinv
          rw [List.isEmpty_iff, List.filter_eq_nil_iff]
          intro f hf
          simp [hall f hf]
        rw [if_neg hemp, if_pos (by simpa using hinv)]
        constructor
        · intro h
          cases h
        · rintro (h | ⟨hall, _, _⟩)
          · exact absurd h hne
          · exact absurd hall hnall

def fileFooOk : FileData :=
  ⟨some "Foo", some "d", some [], some ["DeFi::Lending"], some []⟩

def dirC3 : List (String × Option FileData) :=
  [("CANONICAL.jsonc", some canonicalData), ("foo.json", some fileFooOk)]

theorem C3_witness :
    main ["DeFi::Lending"] dirC3 (some "foo") false (fun _ => FetchResult.exn "") =
      Except.ok () :=
  (C3_exit_code_amended ["DeFi::Lending"] dirC3 "foo" (fun _ => FetchResult.exn "")
    canonicalData [("WETH", "0xCCCC1111CCCC1111CCCC1111CCCC1111CCCC1111")]
    (by
      intro q hq
      simp only [dirC3, List.mem_cons, List.not_mem_nil, or_false] at hq
      rcases hq with rfl | rfl
      · exact ⟨canonicalData,
          [("WETH", "0xCCCC1111CCCC1111CCCC1111CCCC1111CCCC1111")], rfl, rfl⟩
      · exact ⟨fileFooOk, [], rfl, rfl⟩)
    (by decide) (by decide)).1.mpr (by decide)

/-- The record of `foo.json` in the counterexample corpus: its required
`description` field is missing, so the schema check fails on it. -/
def fileFooNoDesc : FileData :=
  ⟨some "Foo", none, some [], some ["DeFi::Lending"], some []⟩

def dirC3cex : List (String × Option FileData) :=
  [("CANONICAL.jsonc", some canonicalData), ("foo.json", some fileFooNoDesc)]

/-- C3 (counterexample): selecting protocol `foo` whose file fails the
schema check (missing `description`), the run nevertheless exits zero —
refuting the claim that a single-file schema failure makes a `--protocol`
run's outcome non-zero. -/
theorem C3_counterexample :
    is_valid_file ["DeFi::Lending"] (readFile dirC3cex "foo.json") = false ∧
    main ["DeFi::Lending"] dirC3cex (some "foo") false (fun _ => FetchResult.exn "") =
      Except.ok () := by
  exact ⟨by decide, by decide⟩

/-! ## Claim C4 -/

/-- The corpus of the link-check crash: one file whose only link is an
`https` URL, probed against a `urlopen` that raises (timeout, connection
error...). -/
def fileOneLink : FileData :=
  ⟨some "L", some "d", some [("docs", "https://example.invalid/page")],
    some ["DeFi::Lending"], some []⟩

/-- C4 (the code, evaluated at the failing input): when the very first
probed link raises, the handler of `check_invalid_links` records the
failure but control then reaches `if status_code != 200:` with
`status_code` never assigned, so the check aborts with an
`UnboundLocalError` instead of reporting a per-link result — the run is
not continued.  (The contract-verification pass,
`verify_contract_on_blockvision`, does convert every probe outcome into a
per-address result, as its total translation shows.) -/
theorem C4_link_check_crash :
    check_invalid_links (fun _ => FetchResult.exn "URLError")
      [("l.json", some fileOneLink)] = Except.error PyError.nameError ∧
    verify_contract_on_blockvision (fun _ => ApiOutcome.timeout) "0xabc" =
      (false, "Request timeout") ∧
    verify_contract_on_blockvision (fun _ => ApiOutcome.http 429 BvJson.notDict) "0xabc" =
      (false, "Rate limit exceeded") ∧
    verify_contract_on_blockvision (fun _ => ApiOutcome.http 401 BvJson.notDict) "0xabc" =
      (false, "Authentication failed") ∧
    verify_contract_on_blockvision (fun _ => ApiOutcome.requestException "conn") "0xabc" =
      (false, "Request failed: conn") := by
  exact ⟨by decide, by decide, by decide, by decide, by decide⟩

/-! ## Claim C7 -/

/-- Specification-side predicate: `c` is a hexadecimal digit in either
case — the code points of `0`-`9` (48-57), `A`-`F` (65-70) and `a`-`f`
(97-102). -/
def isHexDigitChar (c : Char) : Prop :=
  (48 ≤ c.toNat ∧ c.toNat ≤ 57) ∨ (65 ≤ c.toNat ∧ c.toNat ≤ 70) ∨
    (97 ≤ c.toNat ∧ c.toNat ≤ 102)

instance (c : Char) : Decidable (isHexDigitChar c) :=
  inferInstanceAs (Decidable ((48 ≤ c.toNat ∧ c.toNat ≤ 57) ∨
    (65 ≤ c.toNat ∧ c.toNat ≤ 70) ∨ (97 ≤ c.toNat ∧ c.toNat ≤ 102)))

theorem hex_mem_iff (c : Char) :
    (("0123456789ABCDEFabcdef".data).contains c = true) ↔ isHexDigitChar c := by
  constructor
  · intro h
    have hmem : c ∈ "0123456789ABCDEFabcdef".data := List.elem_iff.mp h
    have hlist : ("0123456789ABCDEFabcdef".data) =
        ['0', '1', '2', '3', '4', '5', '6', '7', '8', '9', 'A', 'B', 'C', 'D', 'E',
         'F', 'a', 'b', 'c', 'd', 'e', 'f'] := rfl
    rw [hlist] at hmem
    simp only [List.mem_cons, List.not_mem_nil, or_false] at hmem
    rcases hmem with rfl | rfl | rfl | rfl | rfl | rfl | rfl | rfl | rfl | rfl | rfl |
      rfl | rfl | rfl | rfl | rfl | rfl | rfl | rfl | rfl | rfl | rfl <;> decide
  · intro h
    have hofn := Char.ofNat_toNat c
    unfold isHexDigitChar at h
    obtain ⟨n, hn⟩ : ∃ n, c.toNat = n := ⟨c.toNat, rfl⟩
    rw [hn] at h
    have hc : c = Char.ofNat n := by rw [← hn, hofn]
    subst hc
    rcases h with ⟨h1, h2⟩ | ⟨h1, h2⟩ | ⟨h1, h2⟩ <;> interval_cases n <;> decide

/-- C7: the address validator accepts a string iff it is `0x` followed by
exactly 40 hexadecimal digits of either case (so 42 code points in all);
any other string — wrong length, a non-hex character, a missing or
upper-cased `0X` prefix — is rejected. -/
theorem C7_address_validator (s : String) :
    is_valid_address s = true ↔
      ∃ t : List Char, s.data = '0' :: 'x' :: t ∧ t.length = 40 ∧
        ∀ c ∈ t, isHexDigitChar c := by
  unfold is_valid_address startswith
  simp only [Bool.and_eq_true, beq_iff_eq, List.all_eq_true]
  constructor
  · rintro ⟨⟨htake, hlen⟩, hall⟩
    have htake2 : s.data.take 2 = ['0', 'x'] := htake
    refine ⟨s.data.drop 2, ?_, ?_, ?_⟩
    · conv_lhs => rw [← List.take_append_drop 2 s.data]
      rw [htake2]
      rfl
    · rw [List.length_drop]
      omega
    · intro c hc
      exact (hex_mem_iff c).mp (hall c hc)
  · rintro ⟨t, hdata, hlen, hhex⟩
    refine ⟨⟨?_, ?_⟩, ?_⟩
    · rw [hdata]
      rfl
    · rw [hdata]
      simp [hlen]
    · intro c hc
      rw [hdata] at hc
      exact (hex_mem_iff c).mpr (hhex c hc)

/-! ## Claim C9 -/

/-- A record with every required field but no `addresses` key. -/
def fileNoAddresses : FileData :=
  ⟨some "Bar", some "d", some [], some ["DeFi::Lending"], none⟩

/-- C9: a record without an `addresses` key passes schema validation
(`addresses` is not among `REQUIRED_FIELDS`; its absence merely reads as
an empty address map, a warning), yet the duplicate-label check indexes
`data['addresses']` unguarded, so on a corpus containing that record it
raises `KeyError` instead of returning a result. -/
theorem C9_keyerror_on_missing_addresses :
    is_valid_file ["DeFi::Lending"] (some fileNoAddresses) = true ∧
    check_duplicated_address_labels [("bar.json", some fileNoAddresses)] =
      Except.error PyError.keyError := by
  exact ⟨by decide, by decide⟩

/-! ## Claim C10 -/

/-- C10: the canonical-overlap check is a constant function of its
`json_files` argument — it enumerates the directory itself (every listed
file except `CANONICAL.jsonc` and `README.md`), so any two selections over
the same directory, e.g. a single-protocol run and a whole-corpus run,
produce the identical result. -/
theorem C10_json_files_irrelevant (dir : List (String × Option FileData))
    (jf1 jf2 : List String) :
    check_included_canonical_contracts dir jf1 =
      check_included_canonical_contracts dir jf2 := rfl

/-! ## Claim C8 -/

theorem toNat_ofNat_valid {n : Nat} (h : n.isValidChar) : (Char.ofNat n).toNat = n := by
  rw [Char.ofNat, dif_pos h]
  simp [Char.ofNatAux, Char.toNat, UInt32.toNat]

theorem toLower_toLower (c : Char) : Char.toLower (Char.toLower c) = Char.toLower c := by
  unfold Char.toLower
  by_cases h : c.toNat ≥ 65 ∧ c.toNat ≤ 90
  · rw [if_pos h]
    have hvalid : (c.toNat + 32).isValidChar := by
      unfold Nat.isValidChar
      omega
    rw [if_neg (by rw [toNat_ofNat_valid hvalid]; omega)]
  · rw [if_neg h, if_neg h]

/-- Two strings differ only in letter case: position by position, their
code points agree after lower-casing. -/
def EqUpToCase (x y : String) : Prop :=
  List.Forall₂ (fun c d => Char.toLower c = Char.toLower d) x.data y.data

/-- Two `addresses` mappings carry the same labels, in the same order, and
addresses that differ at most in letter case. -/
def AddrListEquiv (m1 m2 : List (String × String)) : Prop :=
  List.Forall₂ (fun la lb => la.1 = lb.1 ∧ canon la.2 = canon lb.2) m1 m2

/-- Two corpora with the same files whose records differ at most in the
case of their declared addresses. -/
def CorpusEquiv (files1 files2 : List (String × Option FileData)) : Prop :=
  List.Forall₂
    (fun p q => p.1 = q.1 ∧ AddrListEquiv (recordAddresses p.2) (recordAddresses q.2))
    files1 files2

theorem canon_canon (x : String) : canon (canon x) = canon x := by
  unfold canon
  show (⟨(x.data.map Char.toLower).map Char.toLower⟩ : String) = _
  rw [List.map_map]
  congr 1
  apply List.map_congr_left
  intro c _
  exact toLower_toLower c

theorem map_toLower_eq {l1 l2 : List Char}
    (h : List.Forall₂ (fun c d => Char.toLower c = Char.toLower d) l1 l2) :
    l1.map Char.toLower = l2.map Char.toLower := by
  induction h with
  | nil => rfl
  | cons h1 _ ih => simp [h1, ih]

theorem canon_eqUpToCase {x y : String} (h : EqUpToCase x y) : canon x = canon y := by
  unfold canon
  congr 1
  exact map_toLower_eq h

theorem mapStream_eq (f : String) {m1 m2 : List (String × String)}
    (h : AddrListEquiv m1 m2) :
    m1.map (fun la => (canon la.2, (f, la.1))) =
      m2.map (fun la => (canon la.2, (f, la.1))) := by
  induction h with
  | nil => rfl
  | cons h1 _ ih => simp [h1.1, h1.2, ih]

theorem stream_eq_of_corpusEquiv {f1 f2 : List (String × Option FileData)}
    (h : CorpusEquiv f1 f2) : stream f1 = stream f2 := by
  unfold stream
  induction h with
  | nil => rfl
  | cons hpq htail ih =>
    rw [List.flatMap_cons, List.flatMap_cons, ih]
    congr 1
    rw [← hpq.1]
    exact mapStream_eq _ hpq.2

theorem canonSet_eq {m1 m2 : List (String × String)} (h : AddrListEquiv m1 m2) :
    m1.map (fun la => canon la.2) = m2.map (fun la => canon la.2) := by
  induction h with
  | nil => rfl
  | cons h1 _ ih => simp [h1.2, ih]

theorem overlap_items_proj_eq (cset : List String) (f : String)
    {m1 m2 : List (String × String)} (h : AddrListEquiv m1 m2) :
    ((m1.filter (fun la => cset.contains (canon la.2))).map
        (fun la => (f, la.1, la.2))).map (fun v : String × String × String => (v.1, v.2.1)) =
      ((m2.filter (fun la => cset.contains (canon la.2))).map
        (fun la => (f, la.1, la.2))).map (fun v : String × String × String => (v.1, v.2.1)) := by
  induction h with
  | nil => rfl
  | cons h1 htail ih =>
    rename_i a b l1 l2
    simp only [List.filter_cons]
    rw [h1.2]
    by_cases hc : cset.contains (canon b.2) = true
    · rw [if_pos hc, if_pos hc]
      simp only [List.map_cons]
      rw [h1.1, ih]
    · rw [if_neg hc, if_neg hc]
      exact ih

theorem pureOverlaps_proj_eq (cset : List String)
    {d1 d2 : List (String × Option FileData)} (h : CorpusEquiv d1 d2) :
    (pureOverlaps cset d1).map (fun v => (v.1, v.2.1)) =
      (pureOverlaps cset d2).map (fun v => (v.1, v.2.1)) := by
  unfold pureOverlaps
  induction h with
  | nil => rfl
  | cons hpq htail ih =>
    rename_i p q d1t d2t
    rw [List.flatMap_cons, List.flatMap_cons, List.map_append, List.map_append, ih]
    congr 1
    obtain ⟨hname, haddr⟩ := hpq
    unfold overlapRows
    rw [← hname]
    by_cases hex : p.1 = "CANONICAL.jsonc" ∨ p.1 = "README.md"
    · rw [if_pos hex, if_pos hex]
    · rw [if_neg hex, if_neg hex]
      exact overlap_items_proj_eq cset _ haddr

/-- C8: address canonicalization (lower-casing) is idempotent, two address
strings differing only in letter case canonicalize to the same string, and
consequently both corpus checks treat case-variant addresses as the same
address: over corpora equal up to address case, the duplicate-label check
reports identical violations, and the canonical-overlap check flags
identical `(file, label)` entries. -/
theorem C8_canonicalization :
    (∀ x : String, canon (canon x) = canon x) ∧
    (∀ x y : String, EqUpToCase x y → canon x = canon y) ∧
    (∀ files1 files2, CorpusEquiv files1 files2 →
        dupViolationsPure files1 = dupViolationsPure files2) ∧
    (∀ (cm1 cm2 : List (String × String)) dir1 dir2, AddrListEquiv cm1 cm2 →
        CorpusEquiv dir1 dir2 →
        (pureOverlaps (cm1.map (fun la => canon la.2)) dir1).map (fun v => (v.1, v.2.1)) =
          (pureOverlaps (cm2.map (fun la => canon la.2)) dir2).map
            (fun v => (v.1, v.2.1))) := by
  refine ⟨canon_canon, fun x y h => canon_eqUpToCase h, ?_, ?_⟩
  · intro f1 f2 h
    unfold dupViolationsPure
    rw [stream_eq_of_corpusEquiv h]
  · intro cm1 cm2 d1 d2 hm hd
    rw [canonSet_eq hm]
    exact pureOverlaps_proj_eq _ hd

def fileCaseUpper : FileData :=
  ⟨some "U", some "d", some [], some ["DeFi::Lending"], some [("Pool", "0xAB")]⟩

def fileCaseLower : FileData :=
  ⟨some "U", some "d", some [], some ["DeFi::Lending"], some [("Pool", "0xab")]⟩

theorem C8_witness :
    canon (canon "0xAbC") = canon "0xAbC" ∧
    canon "0xAB" = canon "0xab" ∧
    dupViolationsPure [("u.json", some fileCaseUpper)] =
      dupViolationsPure [("u.json", some fileCaseLower)] ∧
    (pureOverlaps ([("W", "0xAB")].map (fun la => canon la.2))
        [("u.json", some fileCaseUpper)]).map (fun v => (v.1, v.2.1)) =
      (pureOverlaps ([("W", "0xab")].map (fun la => canon la.2))
        [("u.json", some fileCaseLower)]).map (fun v => (v.1, v.2.1)) :=
  ⟨C8_canonicalization.1 "0xAbC",
   C8_canonicalization.2.1 "0xAB" "0xab"
     (List.Forall₂.cons (by decide) (List.Forall₂.cons (by decide)
       (List.Forall₂.cons (by decide) (List.Forall₂.cons (by decide) List.Forall₂.nil)))),
   C8_canonicalization.2.2.1 _ _
     (List.Forall₂.cons
       ⟨rfl, List.Forall₂.cons ⟨rfl, by decide⟩ List.Forall₂.nil⟩ List.Forall₂.nil),
   C8_canonicalization.2.2.2 _ _ _ _
     (List.Forall₂.cons ⟨rfl, by decide⟩ List.Forall₂.nil)
     (List.Forall₂.cons
       ⟨rfl, List.Forall₂.cons ⟨rfl, by decide⟩ List.Forall₂.nil⟩ List.Forall₂.nil)⟩

/-! ## Claim C5 -/

theorem cmpPair_symm : CmpSymm cmpPair :=
  cmpThen_symm (cmpOn_symm cmpStr_symm) (cmpOn_symm cmpStr_symm)

theorem cmpRow_symm : CmpSymm cmpRow :=
  cmpThen_symm (cmpOn_symm cmpStr_symm)
    (cmpThen_symm (cmpOn_symm cmpStr_symm)
      (cmpThen_symm (cmpOn_symm cmpStr_symm) (cmpOn_symm cmpStr_symm)))

theorem cmpRow_leTrans : CmpLeTrans cmpRow :=
  cmpThen_leTrans (cmpOn_symm cmpStr_symm) (cmpOn_leTrans cmpStr_leTrans)
    (cmpThen_leTrans (cmpOn_symm cmpStr_symm) (cmpOn_leTrans cmpStr_leTrans)
      (cmpThen_leTrans (cmpOn_symm cmpStr_symm) (cmpOn_leTrans cmpStr_leTrans)
        (cmpOn_leTrans cmpStr_leTrans)))

theorem rowLE_trans : ∀ r1 r2 r3, rowLE r1 r2 → rowLE r2 r3 → rowLE r1 r3 :=
  fun r1 r2 r3 => cmpRow_leTrans r1 r2 r3

theorem rowLE_total : ∀ r1 r2, rowLE r1 r2 || rowLE r2 r1 :=
  fun r1 r2 => cmp_isLE_total cmpRow_symm r1 r2

theorem parse_protocol_file_eq (data : FileData) (c : String) (cs : List String)
    (t st' : String) (hcats : data.categories = some (c :: cs))
    (hsplit : pySplit c "::" = [t, st']) :
    parse_protocol_file (some data) =
      (sortLe pairLE (data.addresses.getD [])).map
        (fun la => ⟨data.name.getD "", t, st', la.1, canon la.2,
          String.intercalate ";" (c :: cs)⟩) := by
  simp only [parse_protocol_file]
  rw [hcats]
  simp only [Option.getD_some]
  rw [hsplit]

/-- C5: for every record with a first category splitting as
`Type::Subtype`, the exporter emits exactly one row per entry of its
`addresses` mapping — with `ctype`/`csubtype` the two parts of the first
category, the address lower-cased, the record's name, and
`all_categories` the semicolon-join of all categories in order — and
whatever non-empty row list is handed to `write_csv` is written as a
permutation of itself sorted by the `(ctype, csubtype, name, contract)`
key. -/
theorem C5_exporter (data : FileData) (c : String) (cs : List String) (t st' : String)
    (hcats : data.categories = some (c :: cs))
    (hsplit : pySplit c "::" = [t, st']) :
    (parse_protocol_file (some data)).length = (data.addresses.getD []).length ∧
    List.Perm (parse_protocol_file (some data))
      ((data.addresses.getD []).map
        (fun la => ⟨data.name.getD "", t, st', la.1, canon la.2,
          String.intercalate ";" (c :: cs)⟩)) ∧
    (∀ rows : List Row, rows ≠ [] →
      ∃ out, write_csv rows = some out ∧ List.Perm out rows ∧
        out.Pairwise (fun r1 r2 => rowLE r1 r2 = true)) := by
  have hp := parse_protocol_file_eq data c cs t st' hcats hsplit
  refine ⟨?_, ?_, ?_⟩
  · rw [hp, List.length_map, length_sortLe]
  · rw [hp]
    exact (perm_sortLe pairLE _).map _
  · intro rows hne
    refine ⟨sortLe rowLE rows, ?_, perm_sortLe rowLE rows, ?_⟩
    · unfold write_csv
      rw [if_neg (by simpa using hne)]
    · exact pairwise_sortLe rowLE rowLE_trans rowLE_total rows

/-- The export exhibit of the spec: `"Foo"` with categories
`["DeFi::Lending", "DeFi::Yield"]` and one address. -/
def fileExport : FileData :=
  ⟨some "Foo", some "d", some [], some ["DeFi::Lending", "DeFi::Yield"],
    some [("Pool", "0xAAA")]⟩

theorem C5_witness :
    (parse_protocol_file (some fileExport)).length =
      (fileExport.addresses.getD []).length ∧
    List.Perm (parse_protocol_file (some fileExport))
      ((fileExport.addresses.getD []).map
        (fun la => ⟨fileExport.name.getD "", "DeFi", "Lending", la.1, canon la.2,
          String.intercalate ";" ("DeFi::Lending" :: ["DeFi::Yield"])⟩)) ∧
    (∀ rows : List Row, rows ≠ [] →
      ∃ out, write_csv rows = some out ∧ List.Perm out rows ∧
        out.Pairwise (fun r1 r2 => rowLE r1 r2 = true)) :=
  C5_exporter fileExport "DeFi::Lending" ["DeFi::Yield"] "DeFi" "Lending" rfl (by decide)

/-! ## Claim C6 -/

/-- Modelled from the spec: the allowed-category list that
`validate_protocol.py` loads from `categories.json` — a data file of the
repository that is not under `src/` — whose entries the spec's data model
gives as strings of the form `"Type::Subtype"` (exactly one `::`
separator).  The predicate states that shape for a candidate list. -/
def WellFormedCategories (allowed : List String) : Prop :=
  ∀ g ∈ allowed, (pySplit g "::").length = 2

theorem is_valid_file_some (allowed : List String) (data : FileData) :
    is_valid_file allowed (some data) =
      (if ¬ (REQUIRED_FIELDS.filter (fun field => ¬ hasField data field)).isEmpty then
         false
       else if (data.categories.getD []).isEmpty then false
       else if ¬ ((data.categories.getD []).filter
           (fun category => ¬ allowed.contains category)).isEmpty then false
       else (data.addresses.getD []).all (fun la => is_valid_address la.2)) := rfl

/-- C6: when every allowed category has the form `X::Y` (one separator),
a record containing a category string that does not split into exactly two
parts on `::` fails schema validation, and the exporter emits no rows for
a record whose first category is so malformed. -/
theorem C6_invalid_category (allowed : List String) (data : FileData) (c : String)
    (hallowed : WellFormedCategories allowed)
    (hmem : c ∈ data.categories.getD [])
    (hbad : (pySplit c "::").length ≠ 2) :
    is_valid_file allowed (some data) = false ∧
    (∀ cs, data.categories = some (c :: cs) → parse_protocol_file (some data) = []) := by
  constructor
  · rw [is_valid_file_some]
    have hc_not : ¬ allowed.contains c = true := by
      intro hc
      exact hbad (hallowed c (List.elem_iff.mp hc))
    have hcmem : c ∈ (data.categories.getD []).filter
        (fun category => ¬ allowed.contains category) :=
      List.mem_filter.mpr ⟨hmem, by simpa using hc_not⟩
    have hinv : ¬ ((data.categories.getD []).filter
        (fun category => ¬ allowed.contains category)).isEmpty = true := by
      intro h
      rw [List.isEmpty_iff.mp h] at hcmem
      cases hcmem
    by_cases h1 : (REQUIRED_FIELDS.filter (fun field => ¬ hasField data field)).isEmpty = true
    · rw [if_neg (by simpa using h1)]
      by_cases h2 : (data.categories.getD []).isEmpty = true
      · rw [if_pos h2]
      · rw [if_neg h2, if_pos hinv]
    · rw [if_pos (by simpa using h1)]
  · intro cs hcs
    simp only [parse_protocol_file]
    rw [hcs]
    simp only [Option.getD_some]
    rcases hsp : pySplit c "::" with _ | ⟨x, _ | ⟨y, _ | ⟨z, l⟩⟩⟩
    · rfl
    · rfl
    · exact absurd (by rw [hsp]; rfl) hbad
    · rfl

def fileBadCategory : FileData :=
  ⟨some "Bad", some "d", some [], some ["Lending"], some []⟩

theorem C6_witness :
    is_valid_file ["DeFi::Lending"] (some fileBadCategory) = false ∧
    (∀ cs, fileBadCategory.categories = some ("Lending" :: cs) →
      parse_protocol_file (some fileBadCategory) = []) :=
  C6_invalid_category ["DeFi::Lending"] fileBadCategory "Lending"
    (by intro g hg; simp only [List.mem_cons, List.not_mem_nil, or_false] at hg; rw [hg]; decide)
    (by decide) (by decide)

end Protocols
